import Mathlib

/-!
Verification of the robolocopy copy engine: a shallow embedding of the
pattern normalizer (`src/utils.ts`), the path matcher, the robocopy
exclusion translator, the robocopy invocation wrapper, and the batched
Node.js copy implementation (`src/index.ts`), together with theorems
settling the specification claims about them.

Strings are modelled by Lean `String` (a packed `List Char`); all string
primitives used by the embedding are defined structurally over `String.data`
so that every definition evaluates inside the kernel.
-/

/-- One character of the backslash normalization `s.replace(/\\/g, "/")`. -/
def normChar (c : Char) : Char := if c = '\\' then '/' else c

/-- JS `s.replace(/\\/g, "/")` — rewrite every backslash to a forward slash
(used by `shouldExclude` and `processExcludePatternsForRobocopy`). -/
def normSep (s : String) : String := ⟨s.data.map normChar⟩

/-- Character-list test: does the second list start with the first? -/
def startsWithChars : List Char → List Char → Bool
  | [], _ => true
  | _ :: _, [] => false
  | a :: as, b :: bs => a == b && startsWithChars as bs

/-- JS `s.endsWith(suf)`, via reversed character lists. -/
def strEndsWith (s suf : String) : Bool :=
  startsWithChars suf.data.reverse s.data.reverse

/-- Character-list substring test (helper of `strContainsSub`). -/
def hasSubChars (pat : List Char) : List Char → Bool
  | [] => startsWithChars pat []
  | c :: rest => startsWithChars pat (c :: rest) || hasSubChars pat rest

/-- JS `s.includes(pat)` for a string `pat`. -/
def strContainsSub (s pat : String) : Bool := hasSubChars pat.data s.data

/-- JS `s.includes(c)` for a single character. -/
def strContainsChar (s : String) (c : Char) : Bool := s.data.contains c

/-- JS `s.slice(0, s.length - n)` for `n ≤ s.length`. -/
def strDropRight (s : String) (n : Nat) : String :=
  ⟨s.data.take (s.data.length - n)⟩

/-- JS `s.split(sep)` for a one-character separator, on character lists. -/
def splitOnChar (sep : Char) (l : List Char) : List (List Char) :=
  l.foldr
    (fun c acc =>
      match acc with
      | [] => [[c]]
      | cur :: rest => if c = sep then [] :: cur :: rest else (c :: cur) :: rest)
    [[]]

/-- JS `s.split(sep)` for a one-character separator. -/
def strSplitOn (s : String) (sep : Char) : List String :=
  (splitOnChar sep s.data).map fun l => ⟨l⟩

/-- JS `parts.join(sep)` for a one-character separator. -/
def joinWithChar (sep : Char) : List String → String
  | [] => ""
  | [s] => s
  | s :: rest => s ++ sep.toString ++ joinWithChar sep rest

/-- Drop trailing whitespace characters (helper of `trimChars`). -/
def dropTrailingWs (l : List Char) : List Char :=
  l.foldr (fun c acc => if acc.isEmpty && c.isWhitespace then [] else c :: acc) []

/-- JS whitespace trimming from both ends of a character list
(`String.prototype.trim`, modelled over the whitespace characters
`Char.isWhitespace` recognises). -/
def trimChars (l : List Char) : List Char :=
  dropTrailingWs (l.dropWhile Char.isWhitespace)

/-- JS `s.trim()`. -/
def strTrim (s : String) : String := ⟨trimChars s.data⟩

/-- True when a character list does not start with a whitespace character. -/
def headNotWs : List Char → Bool
  | [] => true
  | c :: _ => !c.isWhitespace

/-- True when a string neither starts nor ends with whitespace. -/
def noEdgeWs (x : String) : Bool := headNotWs x.data && headNotWs x.data.reverse

/-- JS `[...new Set(l)]`: drop duplicates, keeping first occurrences. -/
def jsSetDedup (l : List String) : List String :=
  l.foldl (fun acc x => if x ∈ acc then acc else acc ++ [x]) []

/-- Modelled from the spec (§4.2): the matching core of the external
`minimatch` library with `{dot: true}`, whose source is not part of this
repository.  `*` matches any run of non-separator characters, `**` matches
any run of characters including separators, `?` matches one non-separator
character, and no dotfile restriction applies.  `allTails`/`starTails`
enumerate the suffixes a `**`/`*` can leave behind. -/
def allTails : List Char → List (List Char)
  | [] => [[]]
  | c :: rest => (c :: rest) :: allTails rest

/-- Suffixes reachable by letting `*` consume non-separator characters. -/
def starTails : List Char → List (List Char)
  | [] => [[]]
  | c :: rest => (c :: rest) :: (if c = '/' then [] else starTails rest)

/-- Modelled from the spec (§4.2): glob matching of a pattern (first
argument) against a path (second argument), dotfile matching enabled. -/
def globMatch : List Char → List Char → Bool
  | [], s => s.isEmpty
  | '*' :: '*' :: ps, s => (allTails s).any fun t => globMatch ps t
  | '*' :: ps, s => (starTails s).any fun t => globMatch ps t
  | '?' :: ps, s =>
    match s with
    | [] => false
    | c :: rest => c != '/' && globMatch ps rest
  | p :: ps, s =>
    match s with
    | [] => false
    | c :: rest => p == c && globMatch ps rest

/-- Modelled from the spec: `minimatch(target, pattern, { dot: true })`. -/
def minimatchModel (target pattern : String) : Bool :=
  globMatch pattern.data target.data

/-- `shouldExclude` from `src/index.ts` (lines 350–360): return false on an
empty pattern list, otherwise normalize separators on both the path and each
pattern and test whether any pattern matches. -/
def shouldExclude (filePath : String) (excludePatterns : List String) : Bool :=
  if excludePatterns.length = 0 then false
  else
    let normalizedPath := normSep filePath
    excludePatterns.any fun pattern =>
      minimatchModel normalizedPath (normSep pattern)

/-- One push of the inner loop of `processExcludePatterns`
(`src/utils.ts` lines 15–20): trim the piece and keep it when non-empty. -/
def pushTrimmed (patterns : List String) (value : String) : List String :=
  let trimmed := strTrim value
  if trimmed ≠ "" then patterns ++ [trimmed] else patterns

/-- `processExcludePatterns` from `src/utils.ts` (lines 4–24): return `[]`
for an empty option list, otherwise split every option on commas, trim each
piece, and push the non-empty trimmed pieces in encounter order. -/
def processExcludePatterns (excludeOptions : List String) : List String :=
  if excludeOptions.length = 0 then []
  else
    excludeOptions.foldl
      (fun patterns option => (strSplitOn option ',').foldl pushTrimmed patterns)
      []

/-- The Pattern Normalizer as the spec (§4.1) words it: split each token on
commas, trim each piece, discard empty pieces, concatenate in encounter
order.  Stated separately so that `processExcludePatterns` can be proved to
refine it. -/
def normalizeSpec (raws : List String) : List String :=
  raws.foldr
    (fun o acc => (((strSplitOn o ',').map strTrim).filter fun t => t ≠ "") ++ acc)
    []

/-- The robocopy exclusion plan: arguments for `/XD` and `/XF`
(the spec's NativeExclusionPlan). -/
structure NativePlan where
  dirExcludes : List String
  fileExcludes : List String
deriving DecidableEq

/-- JS `s.replace(/\*\*/g, "*")`: left-to-right, non-overlapping rewriting
of every `**` to `*`. -/
def collapseStars : List Char → List Char
  | '*' :: '*' :: rest => '*' :: collapseStars rest
  | c :: rest => c :: collapseStars rest
  | [] => []

/-- String form of `collapseStars`.  (The source also applies
`.replace(/\?/g, "?")`, which is the identity.) -/
def strCollapseStars (s : String) : String := ⟨collapseStars s.data⟩

/-- JS `parts[parts.length - 1]` (the split never yields an empty list). -/
def lastPart (parts : List String) : String := parts.getLastD ""

/-- The per-pattern body of the `for` loop of
`processExcludePatternsForRobocopy` (`src/index.ts` lines 187–231), acting
on the accumulated `(dirExcludes, fileExcludes)` pair. -/
def robocopyPatternStep (st : List String × List String) (pattern : String) :
    List String × List String :=
  let dirExcludes := st.1
  let fileExcludes := st.2
  let normalizedPattern := normSep pattern
  if strEndsWith normalizedPattern "/**" then
    (dirExcludes ++ [strDropRight normalizedPattern 3], fileExcludes)
  else if strContainsChar normalizedPattern '/' then
    let parts := strSplitOn normalizedPattern '/'
    if !(strContainsChar (lastPart parts) '*') then
      (dirExcludes ++ [joinWithChar '\\' parts], fileExcludes)
    else
      (dirExcludes, fileExcludes)
  else
    let filePattern := strCollapseStars normalizedPattern
    if strEndsWith filePattern "/" then
      (dirExcludes ++ [strDropRight filePattern 1], fileExcludes)
    else if !(strContainsChar filePattern '*') && !(strContainsChar filePattern '?') then
      if !(strContainsChar filePattern '.') then
        (dirExcludes ++ [filePattern], fileExcludes)
      else
        (dirExcludes, fileExcludes ++ [filePattern])
    else
      (dirExcludes, fileExcludes ++ [filePattern])

/-- `processExcludePatternsForRobocopy` from `src/index.ts`
(lines 180–252): run the per-pattern loop, force-add the four safety-net
directory names when the corresponding substring occurs in any original
pattern, and deduplicate both lists. -/
def processExcludePatternsForRobocopy (excludePatterns : List String) : NativePlan :=
  let folded := excludePatterns.foldl robocopyPatternStep ([], [])
  let d1 :=
    if excludePatterns.any fun p => strContainsSub p "node_modules" then
      folded.1 ++ ["node_modules"]
    else folded.1
  let d2 :=
    if excludePatterns.any fun p => strContainsSub p "dist/" then d1 ++ ["dist"] else d1
  let d3 :=
    if excludePatterns.any fun p => strContainsSub p "build/" then d2 ++ ["build"] else d2
  let d4 :=
    if excludePatterns.any fun p => strContainsSub p ".git" then d3 ++ [".git"] else d3
  ⟨jsSetDedup d4, jsSetDedup folded.2⟩

/-- Result of spawning the robocopy child process: either it exited with a
status code, or the invocation itself failed (binary missing, spawn
failure, killed by a signal — everything for which JS reports no numeric
`status`). -/
inductive SpawnResult where
  | exited (code : Nat)
  | failed (msg : String)
deriving DecidableEq

/-- The caught JS error object as used by `useWindowsRobocopy`: only its
optional numeric `status` field is inspected. -/
structure ExecError where
  status : Option Nat
deriving DecidableEq

/-- `execSync`: returns normally on exit status 0, otherwise throws an
error carrying the exit status (`none` when the process did not exit with
a code). -/
def execSyncModel : SpawnResult → Except ExecError Unit
  | SpawnResult.exited 0 => Except.ok ()
  | SpawnResult.exited (c + 1) => Except.error ⟨some (c + 1)⟩
  | SpawnResult.failed _ => Except.error ⟨none⟩

/-- The try/catch of `useWindowsRobocopy` (`src/index.ts` lines 163–174):
run robocopy via `execSync`; on a thrown error, treat a defined exit code
`<= 7` as success and re-throw anything else. -/
def useWindowsRobocopy (r : SpawnResult) : Except ExecError Unit :=
  match execSyncModel r with
  | Except.ok _ => Except.ok ()
  | Except.error e =>
    match e.status with
    | some exitCode => if exitCode ≤ 7 then Except.ok () else Except.error e
    | none => Except.error e

/-- Which copy implementation a `copyFiles` invocation ends up using. -/
inductive CopyMethod where
  | robocopy
  | nodeImpl
deriving DecidableEq

/-- The strategy choice inside `copyFiles` (`src/index.ts` lines 104–121):
on Windows with a directory input try robocopy and fall back to the Node.js
implementation if it throws; otherwise use the Node.js implementation. -/
def copyFiles (isWindows isDirectoryCopy : Bool) (r : SpawnResult) : CopyMethod :=
  if isWindows && isDirectoryCopy then
    match useWindowsRobocopy r with
    | Except.ok _ => CopyMethod.robocopy
    | Except.error _ => CopyMethod.nodeImpl
  else CopyMethod.nodeImpl

/-- True when `useWindowsRobocopy` returns without throwing. -/
def robocopySucceeds (r : SpawnResult) : Bool :=
  match useWindowsRobocopy r with
  | Except.ok _ => true
  | Except.error _ => false

/-- The spec's CopyOutcome: `{attempted, succeeded, perEntryErrors}`.  The
Node implementation reports these through its final verbose summary
(`copiedCount` out of `filteredEntries.length`) and its per-entry error
log. -/
structure CopyOutcome where
  attempted : Nat
  succeeded : Nat
  perEntryErrors : List (String × String)
deriving DecidableEq

/-- The filesystem environment a batched-copy run interacts with, one
oracle per entry: `ensureParentOk e` is whether
`fs.ensureDir(path.dirname(destPath))` — the one await OUTSIDE the
`try` block (`src/index.ts` line 318) — succeeds, and `copyError e` is
`some msg` when the stat/copy work INSIDE the `try` block (lines 320–337)
throws with message `msg`. -/
structure EntryEnv where
  ensureParentOk : String → Bool
  copyError : String → Option String

/-- Accumulated state of the batched copy loop: which entries had their
per-entry closure invoked, the `copiedCount` counter, and the log of
caught per-entry errors (`console.error` lines 338–340). -/
structure BatchState where
  attempted : List String
  copiedCount : Nat
  errLog : List (String × String)
deriving DecidableEq

/-- The per-entry async closure (`src/index.ts` lines 313–341): if the
parent-directory creation throws the closure rejects before the `try`;
otherwise a caught error is logged and a success bumps `copiedCount`.
In every case the entry counts as attempted. -/
def entryStep (env : EntryEnv) (st : BatchState) (entry : String) : BatchState :=
  if env.ensureParentOk entry then
    match env.copyError entry with
    | none =>
      { attempted := st.attempted ++ [entry], copiedCount := st.copiedCount + 1,
        errLog := st.errLog }
    | some msg =>
      { attempted := st.attempted ++ [entry], copiedCount := st.copiedCount,
        errLog := st.errLog ++ [(entry, msg)] }
  else
    { attempted := st.attempted ++ [entry], copiedCount := st.copiedCount,
      errLog := st.errLog }

/-- `Promise.all` over one batch: every closure of the batch runs to
completion (promises are eager and are not cancelled). -/
def processBatchEntries (env : EntryEnv) (st : BatchState) (batch : List String) : BatchState :=
  batch.foldl (entryStep env) st

/-- Whether `await Promise.all(batch.map ...)` rejects: true exactly when
some closure rejected, i.e. some parent-directory creation failed — caught
per-entry errors never reject. -/
def batchThrew (env : EntryEnv) (batch : List String) : Bool :=
  batch.any fun e => !(env.ensureParentOk e)

/-- Slicing into consecutive batches (helper of `chunk100`): `cur` is the
current batch reversed, `slots` its remaining capacity. -/
def chunkAux : List String → List String → Nat → List (List String)
  | [], cur, _ => if cur.isEmpty then [] else [cur.reverse]
  | e :: rest, cur, 0 => cur.reverse :: chunkAux rest [e] 99
  | e :: rest, cur, slots + 1 => chunkAux rest (e :: cur) slots

/-- The batch partition of the `for` loop at `src/index.ts` line 310:
`filteredEntries.slice(i, i + 100)` for `i = 0, 100, 200, ...`
(`BATCH_SIZE = 100`). -/
def chunk100 (l : List String) : List (List String) := chunkAux l [] 100

/-- The batch loop (`src/index.ts` lines 310–343): batches run strictly in
sequence; an uncaught rejection in a batch stops the loop after that batch
(the exception propagates), otherwise the next batch starts. -/
def runBatches (env : EntryEnv) : List (List String) → BatchState → BatchState × Bool
  | [], st => (st, false)
  | b :: bs, st =>
    let st2 := processBatchEntries env st b
    if batchThrew env b then (st2, true) else runBatches env bs st2

/-- The full batched copy over an already-filtered entry list, returning
the final loop state and whether an uncaught rejection escaped. -/
def nodeDirCopyState (env : EntryEnv) (entries : List String) : BatchState × Bool :=
  runBatches env (chunk100 entries) ⟨[], 0, []⟩

/-- The directory branch of `useNodeImplementation` (`src/index.ts` lines
283–348) as a CopyOutcome producer: an escaped rejection is a thrown error;
otherwise the outcome aggregates the attempted entries, the `copiedCount`
counter and the per-entry error log. -/
def useNodeImplementation (env : EntryEnv) (entries : List String) :
    Except String CopyOutcome :=
  let r := nodeDirCopyState env entries
  if r.2 then Except.error "uncaught ensureDir failure"
  else Except.ok ⟨r.1.attempted.length, r.1.copiedCount, r.1.errLog⟩

/-- Modelled from the spec: node's `path.basename` for a `/`-separated file
path (the external `path` library is not part of this repository). -/
def basename (p : String) : String := lastPart (strSplitOn p '/')

/-- Modelled from the spec: `path.resolve(outputPath, filename)` for a
relative `filename`, i.e. `outputPath/basename`. -/
def joinPath (a b : String) : String := a ++ "/" ++ b

/-- Result of the single-file branch: the outcome plus the list of
(source, destination) copies actually performed. -/
structure SingleFileResult where
  outcome : CopyOutcome
  copies : List (String × String)
deriving DecidableEq

/-- The single-file branch of `useNodeImplementation` (`src/index.ts`
lines 262–281): match the exclusion patterns against the base name only;
if excluded return with no work and no error, otherwise copy the file to
`outputPath/basename`. -/
def useNodeSingleFile (inputPath outputPath : String) (excludePatterns : List String) :
    SingleFileResult :=
  let filename := basename inputPath
  if shouldExclude filename excludePatterns then
    ⟨⟨0, 0, []⟩, []⟩
  else
    ⟨⟨1, 1, []⟩, [(inputPath, joinPath outputPath filename)]⟩

/-- A concrete environment for witnesses: parent-directory creation always
succeeds, and copying `b.txt` fails with a permission error. -/
def envW : EntryEnv :=
  ⟨fun _ => true, fun e => if e = "b.txt" then some "EACCES: permission denied" else none⟩

theorem allTails_nil_mem (s : List Char) : [] ∈ allTails s := by
  induction s with
  | nil => simp [allTails]
  | cons c rest ih => simp [allTails]; exact ih

theorem globMatch_doubleStar (s : List Char) : globMatch ['*', '*'] s = true := by
  have h : (allTails s).any (fun t => globMatch [] t) = true :=
    List.any_eq_true.mpr ⟨[], allTails_nil_mem s, by simp [globMatch]⟩
  simpa [globMatch] using h

/-- Claim C3: for every non-empty path `x`, `shouldExclude x ["**"]` is
true, including for dotfiles and paths under dot-directories (matching is
performed with dotfile matching enabled). -/
theorem claim_C3 (x : String) (h : x ≠ "") : shouldExclude x ["**"] = true := by
  have hpat : (normSep "**").data = ['*', '*'] := by decide
  simp [shouldExclude, minimatchModel, hpat, globMatch_doubleStar]

/-- Claim C3 witness: a concrete dotfile under a dot-directory is excluded
by the bare `**` pattern. -/
theorem claim_C3_witness : shouldExclude ".git/.config" ["**"] = true :=
  claim_C3 ".git/.config" (by decide)

theorem normChar_idem (c : Char) : normChar (normChar c) = normChar c := by
  by_cases h : c = '\\' <;> simp [normChar, h]

theorem normSep_idem (s : String) : normSep (normSep s) = normSep s := by
  simp only [normSep, List.map_map]
  exact congrArg String.mk (List.map_congr_left fun a _ => normChar_idem a)

theorem anyMatch_map_normSep (nx : String) (pats : List String) :
    ((pats.map normSep).any fun pattern => minimatchModel nx (normSep pattern))
      = pats.any fun pattern => minimatchModel nx (normSep pattern) := by
  induction pats with
  | nil => rfl
  | cons p ps ih => simp [normSep_idem, ih]

theorem shouldExclude_normPath (x : String) (pats : List String) :
    shouldExclude (normSep x) pats = shouldExclude x pats := by
  unfold shouldExclude
  by_cases h : pats.length = 0
  · rw [if_pos h, if_pos h]
  · rw [if_neg h, if_neg h]
    simp [normSep_idem]

theorem shouldExclude_normPats (x : String) (pats : List String) :
    shouldExclude x (pats.map normSep) = shouldExclude x pats := by
  unfold shouldExclude
  rw [List.length_map]
  by_cases h : pats.length = 0
  · rw [if_pos h, if_pos h]
  · rw [if_neg h, if_neg h]
    exact anyMatch_map_normSep (normSep x) pats

/-- Claim C9: `shouldExclude` is invariant under replacing every backslash
with a forward slash in the path, in the patterns, or in both — matching
does not depend on platform-native versus POSIX-style separators. -/
theorem claim_C9 (x : String) (pats : List String) :
    shouldExclude (normSep x) pats = shouldExclude x pats ∧
    shouldExclude x (pats.map normSep) = shouldExclude x pats ∧
    shouldExclude (normSep x) (pats.map normSep) = shouldExclude x pats :=
  ⟨shouldExclude_normPath x pats, shouldExclude_normPats x pats,
    (shouldExclude_normPath x (pats.map normSep)).trans (shouldExclude_normPats x pats)⟩

theorem innerFold_eq (vals : List String) (acc : List String) :
    vals.foldl pushTrimmed acc
      = acc ++ ((vals.map strTrim).filter fun t => t ≠ "") := by
  induction vals generalizing acc with
  | nil => simp
  | cons v vs ih =>
    simp only [List.foldl_cons, List.map_cons, List.filter_cons, pushTrimmed]
    by_cases h : strTrim v = ""
    · simp [h, ih]
    · simp [h, ih]

theorem outerFold_eq (opts : List String) (acc : List String) :
    opts.foldl (fun patterns option => (strSplitOn option ',').foldl pushTrimmed patterns) acc
      = acc ++ normalizeSpec opts := by
  induction opts generalizing acc with
  | nil => simp [normalizeSpec]
  | cons o os ih =>
    simp only [List.foldl_cons, normalizeSpec, List.foldr_cons]
    rw [innerFold_eq, ih]
    simp [normalizeSpec, List.append_assoc]

theorem head_dropWhile_not {p : Char → Bool} :
    ∀ {l : List Char} {c : Char}, (l.dropWhile p).head? = some c → p c = false := by
  intro l
  induction l with
  | nil => intro c h; simp [List.dropWhile] at h
  | cons a rest ih =>
    intro c h
    by_cases ha : p a
    · rw [List.dropWhile_cons_of_pos ha] at h
      exact ih h
    · rw [List.dropWhile_cons_of_neg ha] at h
      simp at h
      subst h
      simpa using ha

theorem head_dropTrailingWs {m : List Char} {c : Char}
    (h : (dropTrailingWs m).head? = some c) : m.head? = some c := by
  cases m with
  | nil => simp [dropTrailingWs] at h
  | cons a rest =>
    simp only [dropTrailingWs, List.foldr_cons] at h
    by_cases hc : (List.foldr (fun c acc => if acc.isEmpty && c.isWhitespace then [] else c :: acc) [] rest).isEmpty && a.isWhitespace
    · rw [if_pos hc] at h; simp at h
    · rw [if_neg hc] at h
      simp only [List.head?_cons, Option.some.injEq] at h
      simp [h]

theorem getLast_dropTrailingWs :
    ∀ {m : List Char} {c : Char},
      (dropTrailingWs m).getLast? = some c → c.isWhitespace = false := by
  intro m
  induction m with
  | nil => intro c h; simp [dropTrailingWs] at h
  | cons a rest ih =>
    intro c h
    simp only [dropTrailingWs, List.foldr_cons] at h
    by_cases hc : (dropTrailingWs rest).isEmpty && a.isWhitespace
    · rw [show List.foldr (fun c acc => if acc.isEmpty && c.isWhitespace then [] else c :: acc) [] rest = dropTrailingWs rest from rfl] at h
      rw [if_pos hc] at h; simp at h
    · rw [show List.foldr (fun c acc => if acc.isEmpty && c.isWhitespace then [] else c :: acc) [] rest = dropTrailingWs rest from rfl] at h
      rw [if_neg hc] at h
      rcases hrest : dropTrailingWs rest with _ | ⟨b, bs⟩
      · rw [hrest] at h
        simp at h
        subst h
        rw [hrest] at hc
        simpa using hc
      · rw [hrest] at h
        rw [List.getLast?_cons_cons] at h
        rw [← hrest] at h
        exact ih h

theorem trimChars_noEdgeWs (v : List Char) : noEdgeWs ⟨trimChars v⟩ = true := by
  apply Bool.and_eq_true_iff.mpr
  constructor
  · show headNotWs (trimChars v) = true
    rcases h : trimChars v with _ | ⟨c, cs⟩
    · rfl
    · have hhead : (dropTrailingWs (v.dropWhile Char.isWhitespace)).head? = some c := by
        rw [show dropTrailingWs (v.dropWhile Char.isWhitespace) = trimChars v from rfl, h]
        rfl
      have := head_dropTrailingWs hhead
      have hws := head_dropWhile_not this
      simp [headNotWs, hws]
  · show headNotWs (trimChars v).reverse = true
    rcases h : (trimChars v).reverse with _ | ⟨c, cs⟩
    · rfl
    · have hlast : (trimChars v).getLast? = some c := by
        rw [← List.head?_reverse, h]
        rfl
      have hws := getLast_dropTrailingWs hlast
      simp [headNotWs, hws]

theorem mem_normalizeSpec {x : String} :
    ∀ {raws : List String}, x ∈ normalizeSpec raws → ∃ v, x = strTrim v ∧ x ≠ "" := by
  intro raws
  induction raws with
  | nil => intro hx; simp [normalizeSpec] at hx
  | cons o os ih =>
    intro hx
    simp only [normalizeSpec, List.foldr_cons] at hx
    rcases List.mem_append.mp hx with h | h
    · rcases List.mem_filter.mp h with ⟨hmem, hne⟩
      rcases List.mem_map.mp hmem with ⟨v, _, rfl⟩
      exact ⟨v, rfl, by simpa using hne⟩
    · exact ih h

/-- Claim C7: `processExcludePatterns` splits every raw token on commas,
trims each piece, drops empty pieces and concatenates the rest in encounter
order (it equals the spec-level normalizer); its output contains no empty
and no whitespace-padded elements; and the empty input yields the empty
output rather than an error. -/
theorem claim_C7 (raws : List String) :
    processExcludePatterns raws = normalizeSpec raws ∧
    (processExcludePatterns raws).all (fun x => !(x == "") && noEdgeWs x) = true ∧
    processExcludePatterns [] = [] := by
  have heq : processExcludePatterns raws = normalizeSpec raws := by
    cases raws with
    | nil => simp [processExcludePatterns, normalizeSpec]
    | cons o os =>
      simp only [processExcludePatterns, List.length_cons]
      rw [if_neg (by simp)]
      simpa using outerFold_eq (o :: os) []
  refine ⟨heq, ?_, by simp [processExcludePatterns]⟩
  rw [heq]
  apply List.all_eq_true.mpr
  intro x hx
  rcases mem_normalizeSpec hx with ⟨v, rfl, hne⟩
  have h1 : (!(strTrim v == "")) = true := by
    simpa using hne
  have h2 : noEdgeWs (strTrim v) = true := trimChars_noEdgeWs v.data
  simp [h1, h2]

/-- Claim C4: the robocopy invocation is treated as successful exactly when
the process exits with a status in 0 through 7; any other outcome throws,
and every thrown error — failure status or spawn failure — makes
`copyFiles` fall back to the Node.js implementation instead of failing. -/
theorem claim_C4 (r : SpawnResult) :
    (robocopySucceeds r = true ↔ ∃ c, r = SpawnResult.exited c ∧ c ≤ 7) ∧
    (robocopySucceeds r = false → copyFiles true true r = CopyMethod.nodeImpl) := by
  constructor
  · constructor
    · intro h
      cases r with
      | exited c =>
        refine ⟨c, rfl, ?_⟩
        cases c with
        | zero => omega
        | succ n =>
          by_cases hc : n + 1 ≤ 7
          · exact hc
          · exfalso
            simp [robocopySucceeds, useWindowsRobocopy, execSyncModel, hc] at h
      | failed m =>
        simp [robocopySucceeds, useWindowsRobocopy, execSyncModel] at h
    · rintro ⟨c, rfl, hc⟩
      cases c with
      | zero => rfl
      | succ n => simp [robocopySucceeds, useWindowsRobocopy, execSyncModel, hc]
  · intro h
    cases r with
    | exited c =>
      cases c with
      | zero => simp [robocopySucceeds, useWindowsRobocopy, execSyncModel] at h
      | succ n =>
        by_cases hc : n + 1 ≤ 7
        · simp [robocopySucceeds, useWindowsRobocopy, execSyncModel, hc] at h
        · simp [copyFiles, useWindowsRobocopy, execSyncModel, hc]
    | failed m =>
      simp [copyFiles, useWindowsRobocopy, execSyncModel]

/-- Claim C4 witness: exit status 9 is a failure and `copyFiles` then
selects the Node.js implementation. -/
theorem claim_C4_witness :
    copyFiles true true (SpawnResult.exited 9) = CopyMethod.nodeImpl :=
  (claim_C4 (SpawnResult.exited 9)).2 (by decide)

theorem mem_jsSetDedup_fold (x : String) :
    ∀ (l acc : List String),
      x ∈ l.foldl (fun acc y => if y ∈ acc then acc else acc ++ [y]) acc
        ↔ x ∈ acc ∨ x ∈ l := by
  intro l
  induction l with
  | nil => intro acc; simp
  | cons a as ih =>
    intro acc
    simp only [List.foldl_cons]
    rw [ih]
    by_cases h : a ∈ acc
    · rw [if_pos h]
      constructor
      · rintro (h1 | h1)
        · exact Or.inl h1
        · exact Or.inr (List.mem_cons_of_mem a h1)
      · rintro (h1 | h1)
        · exact Or.inl h1
        · rcases List.mem_cons.mp h1 with rfl | h1
          · exact Or.inl h
          · exact Or.inr h1
    · rw [if_neg h]
      constructor
      · rintro (h1 | h1)
        · rcases List.mem_append.mp h1 with h2 | h2
          · exact Or.inl h2
          · simp at h2
            exact Or.inr (by simp [h2])
        · exact Or.inr (List.mem_cons_of_mem a h1)
      · rintro (h1 | h1)
        · exact Or.inl (List.mem_append.mpr (Or.inl h1))
        · rcases List.mem_cons.mp h1 with rfl | h1
          · exact Or.inl (by simp)
          · exact Or.inr h1

theorem mem_jsSetDedup {x : String} {l : List String} :
    x ∈ jsSetDedup l ↔ x ∈ l := by
  unfold jsSetDedup
  rw [mem_jsSetDedup_fold]
  simp

theorem nodup_jsSetDedup_fold :
    ∀ (l acc : List String), acc.Nodup →
      (l.foldl (fun acc y => if y ∈ acc then acc else acc ++ [y]) acc).Nodup := by
  intro l
  induction l with
  | nil => intro acc h; simpa using h
  | cons a as ih =>
    intro acc h
    simp only [List.foldl_cons]
    by_cases ha : a ∈ acc
    · rw [if_pos ha]; exact ih acc h
    · rw [if_neg ha]
      apply ih
      simp [List.nodup_append, h, ha]

theorem nodup_jsSetDedup (l : List String) : (jsSetDedup l).Nodup :=
  nodup_jsSetDedup_fold l [] (by simp)

theorem robocopyPatternStep_dirs_mono {x : String} {st : List String × List String}
    (p : String) (h : x ∈ st.1) : x ∈ (robocopyPatternStep st p).1 := by
  simp only [robocopyPatternStep]
  split_ifs <;> simp [h]

theorem foldl_robocopy_dirs_mono {x : String} :
    ∀ (l : List String) (st : List String × List String),
      x ∈ st.1 → x ∈ (l.foldl robocopyPatternStep st).1 := by
  intro l
  induction l with
  | nil => intro st h; simpa using h
  | cons p ps ih => intro st h; exact ih _ (robocopyPatternStep_dirs_mono p h)

theorem startsWithChars_iff :
    ∀ (pat l : List Char), startsWithChars pat l = true ↔ ∃ t, l = pat ++ t := by
  intro pat
  induction pat with
  | nil => intro l; simp [startsWithChars]
  | cons a as ih =>
    intro l
    cases l with
    | nil => simp [startsWithChars]
    | cons b bs =>
      simp only [startsWithChars, Bool.and_eq_true, beq_iff_eq]
      rw [ih bs]
      constructor
      · rintro ⟨rfl, t, rfl⟩
        exact ⟨t, rfl⟩
      · rintro ⟨t, h⟩
        injection h with h1 h2
        exact ⟨h1.symm, t, h2⟩

theorem strEndsWith_iff {s suf : String} :
    strEndsWith s suf = true ↔ ∃ t, s.data = t ++ suf.data := by
  unfold strEndsWith
  rw [startsWithChars_iff]
  constructor
  · rintro ⟨t, h⟩
    refine ⟨t.reverse, ?_⟩
    have h2 := congrArg List.reverse h
    simpa using h2
  · rintro ⟨t, h⟩
    refine ⟨t.reverse, ?_⟩
    rw [h]
    simp

theorem strEndsWith_normSep {p : String} (h : strEndsWith p "/**" = true) :
    strEndsWith (normSep p) "/**" = true := by
  rcases strEndsWith_iff.mp h with ⟨t, ht⟩
  apply strEndsWith_iff.mpr
  refine ⟨t.map normChar, ?_⟩
  have hfix : ("/**" : String).data.map normChar = ("/**" : String).data := by decide
  calc (normSep p).data = (t ++ ("/**" : String).data).map normChar := by rw [← ht]; rfl
    _ = t.map normChar ++ ("/**" : String).data := by rw [List.map_append, hfix]

/-- Claim C5: every pattern ending in `/**` contributes its remainder
(after the translator's backslash normalization) to `dirExcludes`; in
particular `["node_modules/**"]` yields a plan containing
`"node_modules"`. -/
theorem claim_C5 (ps : List String) (p : String) (hmem : p ∈ ps)
    (h : strEndsWith p "/**" = true) :
    strDropRight (normSep p) 3 ∈ (processExcludePatternsForRobocopy ps).dirExcludes ∧
    "node_modules" ∈ (processExcludePatternsForRobocopy ["node_modules/**"]).dirExcludes := by
  constructor
  · obtain ⟨l1, l2, rfl⟩ := List.append_of_mem hmem
    have hnorm : strEndsWith (normSep p) "/**" = true := strEndsWith_normSep h
    have hfold :
        strDropRight (normSep p) 3
          ∈ ((l1 ++ p :: l2).foldl robocopyPatternStep ([], [])).1 := by
      rw [List.foldl_append, List.foldl_cons]
      apply foldl_robocopy_dirs_mono
      show strDropRight (normSep p) 3 ∈ (robocopyPatternStep _ p).1
      simp only [robocopyPatternStep]
      rw [if_pos hnorm]
      simp
    rw [List.foldl_append, List.foldl_cons] at hfold
    simp only [processExcludePatternsForRobocopy]
    rw [mem_jsSetDedup]
    split_ifs <;> simp [hfold]
  · decide

/-- Claim C5 witness: the concrete plan for `["node_modules/**"]` puts
`"node_modules"` into `dirExcludes`. -/
theorem claim_C5_witness :
    "node_modules" ∈ (processExcludePatternsForRobocopy ["node_modules/**"]).dirExcludes :=
  (claim_C5 ["node_modules/**"] "node_modules/**" (by decide) (by decide)).2

/-- Claim C6: whenever any pattern contains one of the substrings
`node_modules`, `dist/`, `build/` or `.git`, the corresponding bare
directory name is in the plan's `dirExcludes` regardless of how the
per-pattern rules classified it; and both returned lists are
duplicate-free. -/
theorem claim_C6 (ps : List String) :
    ((ps.any fun p => strContainsSub p "node_modules") = true →
      "node_modules" ∈ (processExcludePatternsForRobocopy ps).dirExcludes) ∧
    ((ps.any fun p => strContainsSub p "dist/") = true →
      "dist" ∈ (processExcludePatternsForRobocopy ps).dirExcludes) ∧
    ((ps.any fun p => strContainsSub p "build/") = true →
      "build" ∈ (processExcludePatternsForRobocopy ps).dirExcludes) ∧
    ((ps.any fun p => strContainsSub p ".git") = true →
      ".git" ∈ (processExcludePatternsForRobocopy ps).dirExcludes) ∧
    (processExcludePatternsForRobocopy ps).dirExcludes.Nodup ∧
    (processExcludePatternsForRobocopy ps).fileExcludes.Nodup := by
  refine ⟨?_, ?_, ?_, ?_, ?_, ?_⟩
  · intro h
    simp only [processExcludePatternsForRobocopy]
    rw [mem_jsSetDedup]
    split_ifs <;> simp_all
  · intro h
    simp only [processExcludePatternsForRobocopy]
    rw [mem_jsSetDedup]
    split_ifs <;> simp_all
  · intro h
    simp only [processExcludePatternsForRobocopy]
    rw [mem_jsSetDedup]
    split_ifs <;> simp_all
  · intro h
    simp only [processExcludePatternsForRobocopy]
    rw [mem_jsSetDedup]
    split_ifs <;> simp_all
  · simp only [processExcludePatternsForRobocopy]
    exact nodup_jsSetDedup _
  · simp only [processExcludePatternsForRobocopy]
    exact nodup_jsSetDedup _

/-- Claim C6 witness: a pattern merely containing `node_modules` as a
substring forces `"node_modules"` into `dirExcludes`. -/
theorem claim_C6_witness :
    "node_modules" ∈ (processExcludePatternsForRobocopy ["foo/node_modules/bar.js"]).dirExcludes :=
  (claim_C6 ["foo/node_modules/bar.js"]).1 (by decide)

/-- Claim C10: a pattern that (after backslash normalization) contains a
slash, does not end in `/**`, and whose final segment contains a `*`,
contributes nothing to either exclusion list; if it also contains none of
the four safety-net substrings, removing it leaves the whole plan
unchanged — it is silently dropped. -/
theorem claim_C10 (p : String) (st : List String × List String) (l1 l2 : List String)
    (h1 : strEndsWith (normSep p) "/**" = false)
    (h2 : strContainsChar (normSep p) '/' = true)
    (h3 : strContainsChar (lastPart (strSplitOn (normSep p) '/')) '*' = true) :
    robocopyPatternStep st p = st ∧
    (strContainsSub p "node_modules" = false → strContainsSub p "dist/" = false →
     strContainsSub p "build/" = false → strContainsSub p ".git" = false →
      processExcludePatternsForRobocopy (l1 ++ p :: l2)
        = processExcludePatternsForRobocopy (l1 ++ l2)) := by
  have hstep : ∀ st2 : List String × List String, robocopyPatternStep st2 p = st2 := by
    intro st2
    simp only [robocopyPatternStep]
    rw [if_neg (by simp [h1]), if_pos h2, if_neg (by simp [h3])]
  refine ⟨hstep st, ?_⟩
  intro hn hd hb hg
  have hfold :
      (l1 ++ p :: l2).foldl robocopyPatternStep ([], [])
        = (l1 ++ l2).foldl robocopyPatternStep ([], []) := by
    rw [List.foldl_append, List.foldl_cons, hstep, ← List.foldl_append]
  have hany : ∀ f : String → Bool, f p = false → (l1 ++ p :: l2).any f = (l1 ++ l2).any f := by
    intro f hf
    simp [List.any_append, List.any_cons, hf]
  simp only [processExcludePatternsForRobocopy]
  rw [hfold, hany (fun q => strContainsSub q "node_modules") hn,
    hany (fun q => strContainsSub q "dist/") hd,
    hany (fun q => strContainsSub q "build/") hb,
    hany (fun q => strContainsSub q ".git") hg]

/-- Claim C10 witness: `src/*.ts` neither changes the loop state nor the
final plan of a pattern list it occurs in. -/
theorem claim_C10_witness :
    robocopyPatternStep (["dirs0"], ["files0"]) "src/*.ts" = (["dirs0"], ["files0"]) ∧
    processExcludePatternsForRobocopy ["src/*.ts", "temp/**"]
      = processExcludePatternsForRobocopy ["temp/**"] := by
  have h := claim_C10 "src/*.ts" (["dirs0"], ["files0"]) [] ["temp/**"]
    (by decide) (by decide) (by decide)
  exact ⟨h.1, h.2 (by decide) (by decide) (by decide) (by decide)⟩

theorem filterMap_congr_on {α β : Type} {f g : α → Option β} :
    ∀ {l : List α}, (∀ a ∈ l, f a = g a) → l.filterMap f = l.filterMap g := by
  intro l
  induction l with
  | nil => intro _; rfl
  | cons a rest ih =>
    intro h
    rw [List.filterMap_cons, List.filterMap_cons, h a (by simp),
      ih fun x hx => h x (List.mem_cons_of_mem a hx)]

theorem processBatchEntries_spec (env : EntryEnv) :
    ∀ (batch : List String) (st : BatchState),
      processBatchEntries env st batch =
        ⟨st.attempted ++ batch,
         st.copiedCount
           + (batch.filter fun e => env.ensureParentOk e && (env.copyError e).isNone).length,
         st.errLog ++ batch.filterMap fun e =>
           if env.ensureParentOk e then (env.copyError e).map fun m => (e, m) else none⟩ := by
  intro batch
  induction batch with
  | nil => intro st; cases st; simp [processBatchEntries]
  | cons e rest ih =>
    intro st
    simp only [processBatchEntries, List.foldl_cons] at *
    rw [ih]
    by_cases h : env.ensureParentOk e = true
    · rcases hc : env.copyError e with _ | m
      · simp [entryStep, h, hc, List.filter_cons, List.filterMap_cons]
        omega
      · simp [entryStep, h, hc, List.filter_cons, List.filterMap_cons]
    · simp [entryStep, h, List.filter_cons, List.filterMap_cons,
        Bool.eq_false_iff.mpr h]

theorem batchThrew_eq_false {env : EntryEnv} {batch : List String}
    (h : ∀ e ∈ batch, env.ensureParentOk e = true) : batchThrew env batch = false := by
  simp only [batchThrew, List.any_eq_false]
  intro e he
  simp [h e he]

theorem chunkAux_join :
    ∀ (l cur : List String) (slots : Nat),
      (chunkAux l cur slots).join = cur.reverse ++ l := by
  intro l
  induction l with
  | nil =>
    intro cur slots
    by_cases h : cur.isEmpty
    · have hc : cur = [] := by simpa [List.isEmpty_iff] using h
      simp [chunkAux, hc]
    · simp [chunkAux, h]
  | cons e rest ih =>
    intro cur slots
    cases slots with
    | zero => simp [chunkAux, ih]
    | succ s => simp [chunkAux, ih]

theorem mem_chunk100 {e : String} {b : List String} {l : List String}
    (hb : b ∈ chunk100 l) (he : e ∈ b) : e ∈ l := by
  have hj : (chunk100 l).join = l := by simpa using chunkAux_join l [] 100
  rw [← hj]
  exact List.mem_join.mpr ⟨b, hb, he⟩

theorem runBatches_noThrow (env : EntryEnv) :
    ∀ (bs : List (List String)) (st : BatchState),
      (∀ b ∈ bs, batchThrew env b = false) →
      runBatches env bs st = (processBatchEntries env st bs.join, false) := by
  intro bs
  induction bs with
  | nil => intro st h; simp [runBatches, processBatchEntries]
  | cons b rest ih =>
    intro st h
    simp only [runBatches]
    rw [if_neg (by simp [h b (by simp)])]
    rw [ih _ fun x hx => h x (List.mem_cons_of_mem _ hx)]
    simp [processBatchEntries, List.foldl_append]

theorem nodeDirCopyState_spec (env : EntryEnv) (entries : List String)
    (h : ∀ e ∈ entries, env.ensureParentOk e = true) :
    nodeDirCopyState env entries =
      (⟨entries,
        (entries.filter fun e => (env.copyError e).isNone).length,
        entries.filterMap fun e => (env.copyError e).map fun m => (e, m)⟩, false) := by
  have hb : ∀ b ∈ chunk100 entries, batchThrew env b = false := fun b hbmem =>
    batchThrew_eq_false fun e he => h e (mem_chunk100 hbmem he)
  unfold nodeDirCopyState
  rw [runBatches_noThrow env _ _ hb]
  have hj : (chunk100 entries).join = entries := by simpa using chunkAux_join entries [] 100
  rw [hj, processBatchEntries_spec]
  have hfilter :
      (entries.filter fun e => env.ensureParentOk e && (env.copyError e).isNone)
        = entries.filter fun e => (env.copyError e).isNone :=
    List.filter_congr fun e he => by rw [h e he]; simp
  have hmap :
      (entries.filterMap fun e =>
          if env.ensureParentOk e then (env.copyError e).map fun m => (e, m) else none)
        = entries.filterMap fun e => (env.copyError e).map fun m => (e, m) :=
    filterMap_congr_on fun e he => by rw [h e he]; simp
  rw [hfilter, hmap]
  simp

/-- Claim C1: when the per-entry failures are of the caught kind (the
parent-directory creation outside the `try` succeeds for every entry),
every entry of every batch has its copy attempted — no caught per-entry
error prevents any other entry of the same or of a later batch — the run
completes, and each failed entry is recorded in the error log with its
message. -/
theorem claim_C1 (env : EntryEnv) (entries : List String)
    (h : ∀ e ∈ entries, env.ensureParentOk e = true) :
    (nodeDirCopyState env entries).1.attempted = entries ∧
    (nodeDirCopyState env entries).2 = false ∧
    (nodeDirCopyState env entries).1.errLog
      = entries.filterMap fun e => (env.copyError e).map fun m => (e, m) := by
  rw [nodeDirCopyState_spec env entries h]
  exact ⟨rfl, rfl, rfl⟩

/-- Claim C1 witness: with `b.txt` failing among three entries, all three
entries are attempted, the run completes, and the failure is logged. -/
theorem claim_C1_witness :
    (nodeDirCopyState envW ["a.txt", "b.txt", "c.txt"]).1.attempted
        = ["a.txt", "b.txt", "c.txt"] ∧
    (nodeDirCopyState envW ["a.txt", "b.txt", "c.txt"]).2 = false ∧
    (nodeDirCopyState envW ["a.txt", "b.txt", "c.txt"]).1.errLog
      = ["a.txt", "b.txt", "c.txt"].filterMap fun e => (envW.copyError e).map fun m => (e, m) :=
  claim_C1 envW ["a.txt", "b.txt", "c.txt"] fun _ _ => rfl

/-- Claim C2: on an entry list whose failures are all of the caught kind,
the batched copier returns a CopyOutcome with `attempted` equal to the
length of the entry list, `succeeded` equal to the number of entries copied
without error, and `perEntryErrors` listing each failed entry with its
error message. -/
theorem claim_C2 (env : EntryEnv) (entries : List String)
    (h : ∀ e ∈ entries, env.ensureParentOk e = true) :
    useNodeImplementation env entries =
      Except.ok ⟨entries.length,
        (entries.filter fun e => (env.copyError e).isNone).length,
        entries.filterMap fun e => (env.copyError e).map fun m => (e, m)⟩ := by
  unfold useNodeImplementation
  rw [nodeDirCopyState_spec env entries h]
  simp

/-- Claim C2 witness: three entries with one failure produce the outcome
`attempted = 3`, `succeeded = 2` and the one recorded error. -/
theorem claim_C2_witness :
    useNodeImplementation envW ["a.txt", "b.txt", "c.txt"] =
      Except.ok ⟨3, 2, [("b.txt", "EACCES: permission denied")]⟩ := by
  rw [claim_C2 envW ["a.txt", "b.txt", "c.txt"] fun _ _ => rfl]
  rfl

/-- Claim C8: on a single-file input the matcher is evaluated against the
file's base name only; when that base name is excluded the file is skipped
with no error and a zero/zero outcome, otherwise it is copied to
`outputPath/basename`. -/
theorem claim_C8 (inputPath outputPath : String) (pats : List String) :
    (shouldExclude (basename inputPath) pats = true →
      useNodeSingleFile inputPath outputPath pats = ⟨⟨0, 0, []⟩, []⟩) ∧
    (shouldExclude (basename inputPath) pats = false →
      useNodeSingleFile inputPath outputPath pats
        = ⟨⟨1, 1, []⟩, [(inputPath, joinPath outputPath (basename inputPath))]⟩) := by
  constructor
  · intro h; simp [useNodeSingleFile, h]
  · intro h; simp [useNodeSingleFile, h]

/-- Claim C8 witness: `docs/readme.log` is skipped by `*.log` because its
base name matches, even though the full path does not. -/
theorem claim_C8_witness :
    useNodeSingleFile "docs/readme.log" "out" ["*.log"] = ⟨⟨0, 0, []⟩, []⟩ :=
  (claim_C8 "docs/readme.log" "out" ["*.log"]).1 (by decide)
